import Mathlib

/-!
# A shallow embedding of the go-filecoin chain syncer

This file embeds the `DefaultSyncer` of the `chain` package (collectChain,
syncOne, widen, HandleNewTipset) as pure state-passing Lean functions and
proves properties of the embedding.

Modelling conventions:
* Block cids are natural numbers; a tipset key (`types.SortedCidSet`) is the
  canonical sorted, duplicate-free list of cids.
* A tipset is a list of blocks; the `types` package is not part of the given
  sources, so tipset operations (`Parents`, `Height`, `AddBlock`,
  `ToSortedCidSet`) are modelled from the spec's data-model section
  (all blocks of a tipset share parents and height; the key is the sorted
  cid sequence; `AddBlock` inserts a block keyed by its cid).
* State trees are identified with their root cids (naturals); the state
  store is the set of resolvable roots, and `Flush` registers a root.
* The consensus protocol, and the network contents reachable through the
  block fetcher, are parameters (an `Env` record of functions), mirroring
  the `consensus.Protocol` and `syncFetcher` interfaces of the source.
* Go's in-place mutation (bad-tipset cache, store, blockstore) is modelled
  by threading a `SyncState` through every function; an error return still
  carries the state as mutated so far, exactly as a Go error return leaves
  the receiver's fields mutated.
* The unbounded `for` loops are given a fuel argument; exhausting fuel is a
  distinguished error (`outOfFuel`) and models non-termination, never a
  behaviour of the source.
-/

/-- Error kinds surfaced by the syncer; consensus/fetcher failures are
represented abstractly. -/
inductive SyncErr where
  | chainHasBadTipSet
  | newChainTooLong
  | unexpectedStoreState
  | fetchFailed
  | stateNotFound
  | storeError
  | tipsetError
  | outOfFuel
  | consensusFailure (code : Nat)
  deriving DecidableEq, Repr

/-- Sync mode of the syncer: `syncing` or `caughtUp` (source `SyncMode`). -/
inductive SyncMode where
  | syncing
  | caughtUp
  deriving DecidableEq, Repr

/-- FinalityLimit is the maximum number of blocks ahead of the current
consensus chain height to accept once in caught up mode (source value 600). -/
def FinalityLimit : Nat := 600

/-- A block: content id, parent tipset key, height.  Modelled from the spec:
the `types.Block` fields the syncer consults. -/
structure Block where
  cid : Nat
  parents : List Nat
  height : Nat
  deriving DecidableEq, Repr

/-- A tipset key: canonical sorted cid list (`types.SortedCidSet`). -/
abbrev Key := List Nat

/-- A tipset: a list of blocks (`types.TipSet` is a map cid to block; the
list models the map's entries, and all key computations sort). -/
abbrev TipSet := List Block

/-- A state tree, identified with its root cid. -/
abbrev StateTree := Nat

/-- Insert a cid into a sorted duplicate-free cid list. -/
def insertCid (n : Nat) : List Nat → List Nat
  | [] => [n]
  | m :: ms => if n < m then n :: m :: ms
    else if n = m then m :: ms
    else m :: insertCid n ms

/-- Canonical tipset key of a tipset (`ToSortedCidSet` / `String()`):
the sorted, duplicate-free list of the member blocks' cids. -/
def tsKey (ts : TipSet) : Key :=
  ts.foldr (fun b acc => insertCid b.cid acc) []

/-- `TipSet.Parents`: the shared parent key of the member blocks; fails on an
empty tipset.  Modelled from the spec: every block of a tipset has the same
parent set. -/
def tsParents : TipSet → Except SyncErr Key
  | [] => .error .tipsetError
  | b :: _ => .ok b.parents

/-- `TipSet.Height`: the shared height of the member blocks; fails on an
empty tipset. -/
def tsHeight : TipSet → Except SyncErr Nat
  | [] => .error .tipsetError
  | b :: _ => .ok b.height

/-- Total parent key used by the store's secondary index. -/
def parentsOf : TipSet → Key
  | [] => []
  | b :: _ => b.parents

/-- Total height used by the store's secondary index. -/
def heightOf : TipSet → Nat
  | [] => 0
  | b :: _ => b.height

/-- `TipSet.AddBlock`: adds a block to a tipset, keyed by cid (replacing any
block of the same cid), failing if the block's parents or height disagree
with the tipset's.  Modelled from the spec's tipset invariants. -/
def addBlockTS (ts : TipSet) (b : Block) : Except SyncErr TipSet :=
  match ts with
  | [] => .error .tipsetError
  | b0 :: _ =>
    if b.parents = b0.parents ∧ b.height = b0.height then
      .ok (ts.filter (fun x => x.cid != b.cid) ++ [b])
    else .error .tipsetError

/-- A tipset paired with the root of its computed post-state
(`chain.TipSetAndState`). -/
structure TipSetAndState where
  tipSet : TipSet
  stateRoot : StateTree
  deriving DecidableEq, Repr

/-- The chain store consumed by the syncer, modelled from the spec's store
contract: the primary tipset index, the head pointer and the blockstore
reachable through `HasAllBlocks`/the fetcher.  The secondary
(parents, height) index is derived from the primary one. -/
structure ChainStore where
  tipsets : List (Key × TipSetAndState)
  head : Key
  blocks : List Block
  deriving DecidableEq, Repr

/-- Association-list insertion with replacement, preserving index order. -/
def putEntry (k : Key) (v : TipSetAndState) :
    List (Key × TipSetAndState) → List (Key × TipSetAndState)
  | [] => [(k, v)]
  | p :: ps => if p.1 = k then (k, v) :: ps else p :: putEntry k v ps

/-- Primary-index lookup (`GetTipSet` / `GetTipSetStateRoot` /
`HasTipSetAndState` all read this entry). -/
def lookupTS (cs : ChainStore) (k : Key) : Option TipSetAndState :=
  (cs.tipsets.find? (fun p => p.1 = k)).map (·.2)

/-- `HasAllBlocks`: every cid resolves to a block in the blockstore. -/
def hasAllBlocks (cs : ChainStore) (cids : List Nat) : Bool :=
  cids.all (fun c => cs.blocks.any (fun b => b.cid = c))

/-- Add a block to the blockstore if no block with its cid is present. -/
def addBlk (bs : List Block) (b : Block) : List Block :=
  if bs.any (fun x => x.cid = b.cid) then bs else bs ++ [b]

/-- Add a list of fetched blocks to the blockstore (the bitswap exchange
wraps the node's shared blockstore, so resolved blocks become local). -/
def addBlks (bs : List Block) (blks : List Block) : List Block :=
  blks.foldl addBlk bs

/-- Secondary-index fetch (`GetTipSetAndStatesByParentsAndHeight`): all
stored tipsets with the given parent key and height, in index order.
`HasTipSetAndStatesWithParentsAndHeight` is its non-emptiness. -/
def tipsetsByParentsAndHeight (cs : ChainStore) (pk : Key) (h : Nat) :
    List TipSetAndState :=
  (cs.tipsets.map (·.2)).filter
    (fun tsas => parentsOf tsas.tipSet = pk && heightOf tsas.tipSet = h)

/-- The full syncer state: chain store, resolvable state roots, bad-tipset
cache, sync mode, and a ghost log of the tipset keys on which a widening
was attempted (the ghost field never influences control flow). -/
structure SyncState where
  store : ChainStore
  stateStore : List StateTree
  badTipSets : List Key
  syncMode : SyncMode
  widenAttempts : List Key
  deriving DecidableEq, Repr

/-- `badTipSetCache.Add`. -/
def addBad (k : Key) (S : SyncState) : SyncState :=
  if k ∈ S.badTipSets then S
  else { S with badTipSets := S.badTipSets ++ [k] }

/-- `badTipSetCache.AddChain`: add the key of every tipset of the list. -/
def addChainBad (chain : List TipSet) (S : SyncState) : SyncState :=
  chain.foldl (fun S ts => addBad (tsKey ts) S) S

/-- `PutTipSetAndState`: insert the pair keyed by its tipset's key. -/
def putTS (S : SyncState) (tsas : TipSetAndState) : SyncState :=
  { S with store :=
      { S.store with tipsets := putEntry (tsKey tsas.tipSet) tsas S.store.tipsets } }

/-- `state.Tree.Flush`: register a state root as resolvable. -/
def addRoot (S : SyncState) (r : StateTree) : SyncState :=
  { S with stateStore := r :: S.stateStore }

/-- `SetHead`: point the head at the tipset's key. -/
def setHead (S : SyncState) (ts : TipSet) : SyncState :=
  { S with store := { S.store with head := tsKey ts } }

/-- The syncer's environment: the network contents reachable through the
fetcher, and the three consensus-protocol operations the syncer calls
(`NewValidTipSet`, `RunStateTransition`, `IsHeavier`).  The head-parent
state handed to `IsHeavier` is optional, mirroring the nil `state.Tree`
the source passes when the head is the genesis tipset. -/
structure Env where
  net : List Block
  newValidTipSet : List Block → Except SyncErr TipSet
  runStateTransition : TipSet → List TipSet → StateTree → Except SyncErr StateTree
  isHeavier : TipSet → TipSet → StateTree → Option StateTree → Except SyncErr Bool

/-- Resolve one cid against the local blockstore, then the network. -/
def resolveBlk (env : Env) (cs : ChainStore) (c : Nat) : Option Block :=
  match cs.blocks.find? (fun b => b.cid = c) with
  | some b => some b
  | none => env.net.find? (fun b => b.cid = c)

/-- `getBlksMaybeFromNet` resolution: all-or-nothing over the cid list. -/
def resolveBlks (env : Env) (cs : ChainStore) (cids : List Nat) :
    Option (List Block) :=
  cids.mapM (resolveBlk env cs)

/-- `getBlksMaybeFromNet`: resolve the cids locally or over the network;
on success the fetched blocks land in the node's shared blockstore (the
fetcher wraps a bitswap exchange wrapping that blockstore). -/
def getBlksMaybeFromNet (env : Env) (S : SyncState) (cids : List Nat) :
    SyncState × Except SyncErr (List Block) :=
  match resolveBlks env S.store cids with
  | none => (S, .error .fetchFailed)
  | some blks =>
    ({ S with store := { S.store with blocks := addBlks S.store.blocks blks } },
      .ok blks)

/-- `tipSetState`: look up a stored tipset's state root and load it;
`ErrUnexpectedStoreState` if the tipset is absent from the store. -/
def tipSetState (S : SyncState) (k : Key) : Except SyncErr StateTree :=
  match lookupTS S.store k with
  | none => .error .unexpectedStoreState
  | some tsas =>
    if tsas.stateRoot ∈ S.stateStore then .ok tsas.stateRoot
    else .error .stateNotFound

/-- `collectChain`'s loop (source lines 170-209): walk backward from
`cids` while the sync mode is `Syncing` or fewer than `FinalityLimit`
tipsets are collected; stop successfully at a tipset already tracked in the
store; fail on a cached-bad tipset; fetch, group with `NewValidTipSet`
(caching the cursor and every collected tipset as bad on failure), prepend
and continue with the parents.  `chain` is the accumulator, oldest first. -/
def collectChainAux (env : Env) :
    Nat → SyncState → Key → List TipSet → SyncState × Except SyncErr (List TipSet)
  | 0, S, _, chain =>
    if S.syncMode = SyncMode.syncing ∨ chain.length < FinalityLimit then
      (S, .error .outOfFuel)
    else (S, .error .newChainTooLong)
  | fuel + 1, S, cids, chain =>
    if S.syncMode = SyncMode.syncing ∨ chain.length < FinalityLimit then
      if (lookupTS S.store cids).isSome then (S, .ok chain)
      else if cids ∈ S.badTipSets then (S, .error .chainHasBadTipSet)
      else
        match getBlksMaybeFromNet env S cids with
        | (_, .error e) => (S, .error e)
        | (Sf, .ok blks) =>
          match env.newValidTipSet blks with
          | .error e => (addChainBad chain (addBad cids Sf), .error e)
          | .ok ts =>
            match tsParents ts with
            | .error e => (Sf, .error e)
            | .ok pcids => collectChainAux env fuel Sf pcids (ts :: chain)
    else (S, .error .newChainTooLong)

/-- `collectChain` entry point: empty accumulator. -/
def collectChain (env : Env) (fuel : Nat) (S : SyncState) (cids : Key) :
    SyncState × Except SyncErr (List TipSet) :=
  collectChainAux env fuel S cids []

/-- The ancestor walk shared by `GetRecentAncestors` and the reorg
comparison (`IterAncestors` + `CollectTipSetsOfHeightAtLeast`).
Modelled from the spec: those functions live outside the given sources;
the walk follows `Parents` through the store until the empty (genesis)
parent set, failing if an ancestor is missing from the store.  Only its
success or failure is consumed by the syncer claims. -/
def collectAncestors (S : SyncState) : Nat → TipSet → Except SyncErr (List TipSet)
  | 0, _ => .error .outOfFuel
  | fuel + 1, ts => do
    let pk ← tsParents ts
    if pk.isEmpty then pure [ts]
    else
      match lookupTS S.store pk with
      | none => .error .unexpectedStoreState
      | some tsas => do
        let rest ← collectAncestors S fuel tsas.tipSet
        pure (ts :: rest)

/-- The first phase of `syncOne` (source lines 247-271): load the parent
state, read the next tipset's height, gather recent ancestors, and run the
consensus state transition, producing the new state tree. -/
def syncOnePre (env : Env) (fuel : Nat) (S : SyncState) (parent next : TipSet) :
    Except SyncErr StateTree := do
  let st ← tipSetState S (tsKey parent)
  let _h ← tsHeight next
  let anc ← collectAncestors S fuel parent
  env.runStateTransition next anc st

/-- Persist phase of `syncOne` (source lines 272-282): flush the computed
state root and write `(next, root)` through `PutTipSetAndState`. -/
def syncOnePersist (S : SyncState) (next : TipSet) (root : StateTree) : SyncState :=
  putTS (addRoot S root) ⟨next, root⟩

/-- The inputs of the weight comparison (source lines 287-305): the next
tipset's parent state, the head tipset, and the head's parent state, which
is `none` exactly when the head's parent set is empty (the head is the
genesis tipset and the nil state tree is handed to `IsHeavier`). -/
def weighInputs (S1 : SyncState) (head : Key) (parent : TipSet) :
    Except SyncErr (StateTree × TipSet × Option StateTree) :=
  match tipSetState S1 (tsKey parent) with
  | .error e => .error e
  | .ok nps =>
    match lookupTS S1.store head with
    | none => .error .storeError
    | some tsas =>
      match tsParents tsas.tipSet with
      | .error e => .error e
      | .ok hpc =>
        if hpc.isEmpty then .ok (nps, tsas.tipSet, none)
        else
          match tipSetState S1 hpc with
          | .error e => .error e
          | .ok t => .ok (nps, tsas.tipSet, some t)

/-- The weight decision of `syncOne` (source line 307): `IsHeavier` applied
to the weigh inputs. -/
def syncOneDecision (env : Env) (S1 : SyncState) (head : Key)
    (parent next : TipSet) : Except SyncErr Bool :=
  match weighInputs S1 head parent with
  | .error e => .error e
  | .ok w => env.isHeavier next w.2.1 w.1 w.2.2

/-- Tail of `syncOne` after persistence (source lines 285-329): weigh the
persisted tipset against the head; when heavier, walk the new chain's
ancestors for the reorg comparison and update the head; otherwise leave
the head unchanged. -/
def syncOnePost (env : Env) (fuel : Nat) (S1 : SyncState) (head : Key)
    (parent next : TipSet) : SyncState × Except SyncErr Unit :=
  match syncOneDecision env S1 head parent next with
  | .error e => (S1, .error e)
  | .ok false => (S1, .ok ())
  | .ok true =>
    match collectAncestors S1 fuel parent with
    | .error e => (S1, .error e)
    | .ok _ => (setHead S1 next, .ok ())

/-- `syncOne` (source lines 239-330): no-op when `next` is already the
head; otherwise validate through the state transition, persist, and
promote the head exactly when consensus finds the new tipset heavier. -/
def syncOne (env : Env) (fuel : Nat) (S : SyncState) (parent next : TipSet) :
    SyncState × Except SyncErr Unit :=
  if S.store.head = tsKey next then (S, .ok ())
  else
    match syncOnePre env fuel S parent next with
    | .error e => (S, .error e)
    | .ok root =>
      syncOnePost env fuel (syncOnePersist S next root) S.store.head parent next

/-- The candidate selection of `widen` (source lines 358-364): scan the
candidate list keeping the current tipset unless a strictly larger one is
found, starting from the first candidate. -/
def pickMax (candidates : List TipSetAndState) (c0 : TipSetAndState) :
    TipSetAndState :=
  candidates.foldl
    (fun m c => if m.tipSet.length < c.tipSet.length then c else m) c0

/-- `widen` (source lines 337-380): among the stored tipsets with the same
parents and height, take the one with the most blocks (first encountered
wins ties), union it into `ts`, and return the union unless it coincides
with `ts` or with the chosen candidate. -/
def widen (S : SyncState) (ts : TipSet) : Except SyncErr (Option TipSet) :=
  match tsParents ts with
  | .error e => .error e
  | .ok parentSet =>
    match tsHeight ts with
    | .error e => .error e
    | .ok height =>
      match tipsetsByParentsAndHeight S.store parentSet height with
      | [] => .ok none
      | c0 :: cs =>
        match (pickMax (c0 :: cs) c0).tipSet.foldlM addBlockTS ts with
        | .error e => .error e
        | .ok wts =>
          if tsKey wts = tsKey ts ∨
              tsKey wts = tsKey (pickMax (c0 :: cs) c0).tipSet then .ok none
          else .ok (some wts)

/-- Result of `HandleNewTipset`: success, a propagated error, or the Go
runtime panic that indexing `chain[0]` on an empty collected chain would
raise (source line 410). -/
inductive SyncResult where
  | ok
  | err (e : SyncErr)
  | panicked
  deriving DecidableEq, Repr

/-- The forward loop of `HandleNewTipset` over the collected chain (source
lines 438-451), past the widening of the first element: call `syncOne` on
each tipset; on failure add the keys of the failing tipset and every later
tipset to the bad-tipset cache and surface the error; on success advance
the parent. -/
def syncLoopRest (env : Env) (fuel : Nat) :
    SyncState → TipSet → List TipSet → SyncState × Except SyncErr Unit
  | S, _, [] => (S, .ok ())
  | S, parent, ts :: rest =>
    match syncOne env fuel S parent ts with
    | (S2, .error e) => (addChainBad (ts :: rest) S2, .error e)
    | (S2, .ok _) => syncLoopRest env fuel S2 ts rest

/-- Record a widening attempt in the ghost log (no observable effect). -/
def pushWiden (S : SyncState) (ts : TipSet) : SyncState :=
  { S with widenAttempts := S.widenAttempts ++ [tsKey ts] }

/-- Processing of a non-empty collected chain (source lines 422-451): widen
the first tipset (recording the attempt in the ghost log); if widening
yields a tipset, `syncOne` it, returning its error without any bad-cache
marking; then run the forward loop over the whole chain. -/
def processChain (env : Env) (fuel : Nat) (S : SyncState) (parent : TipSet)
    (chain : List TipSet) : SyncState × Except SyncErr Unit :=
  match chain with
  | [] => (S, .ok ())
  | c0 :: _ =>
    match widen (pushWiden S c0) c0 with
    | .error e => (pushWiden S c0, .error e)
    | .ok none => syncLoopRest env fuel (pushWiden S c0) parent chain
    | .ok (some wts) =>
      match syncOne env fuel (pushWiden S c0) parent wts with
      | (S2, .error e) => (S2, .error e)
      | (S2, .ok _) => syncLoopRest env fuel S2 parent chain

/-- `HandleNewTipset` (source lines 386-453): return immediately when the
store already has all the candidate's blocks; collect the chain back to
the store; look up the parent of the oldest collected tipset; then process
the chain forward.  Indexing an empty collected chain is the modelled
panic. -/
def HandleNewTipset (env : Env) (fuel : Nat) (S : SyncState) (K : Key) :
    SyncState × SyncResult :=
  if hasAllBlocks S.store K then (S, .ok)
  else
    match collectChain env fuel S K with
    | (S1, .error e) => (S1, .err e)
    | (S1, .ok chain) =>
      match chain with
      | [] => (S1, .panicked)
      | c0 :: _ =>
        match tsParents c0 with
        | .error e => (S1, .err e)
        | .ok parentCids =>
          match lookupTS S1.store parentCids with
          | none => (S1, .err .storeError)
          | some ptsas =>
            match processChain env fuel S1 ptsas.tipSet chain with
            | (S2, .error e) => (S2, .err e)
            | (S2, .ok _) => (S2, .ok)

/-! ## Component lemmas about the state operations -/

theorem addBad_store (k : Key) (S : SyncState) : (addBad k S).store = S.store := by
  unfold addBad; split <;> rfl

theorem addBad_stateStore (k : Key) (S : SyncState) :
    (addBad k S).stateStore = S.stateStore := by
  unfold addBad; split <;> rfl

theorem addBad_mode (k : Key) (S : SyncState) :
    (addBad k S).syncMode = S.syncMode := by
  unfold addBad; split <;> rfl

theorem addBad_widen (k : Key) (S : SyncState) :
    (addBad k S).widenAttempts = S.widenAttempts := by
  unfold addBad; split <;> rfl

theorem addChainBad_store (chain : List TipSet) (S : SyncState) :
    (addChainBad chain S).store = S.store := by
  induction chain generalizing S with
  | nil => rfl
  | cons t ts ih => simpa [addChainBad, addBad_store] using ih (addBad (tsKey t) S)

theorem addChainBad_stateStore (chain : List TipSet) (S : SyncState) :
    (addChainBad chain S).stateStore = S.stateStore := by
  induction chain generalizing S with
  | nil => rfl
  | cons t ts ih =>
    simpa [addChainBad, addBad_stateStore] using ih (addBad (tsKey t) S)

theorem addChainBad_mode (chain : List TipSet) (S : SyncState) :
    (addChainBad chain S).syncMode = S.syncMode := by
  induction chain generalizing S with
  | nil => rfl
  | cons t ts ih => simpa [addChainBad, addBad_mode] using ih (addBad (tsKey t) S)

theorem addChainBad_widen (chain : List TipSet) (S : SyncState) :
    (addChainBad chain S).widenAttempts = S.widenAttempts := by
  induction chain generalizing S with
  | nil => rfl
  | cons t ts ih => simpa [addChainBad, addBad_widen] using ih (addBad (tsKey t) S)

theorem find?_putEntry (k k' : Key) (v : TipSetAndState)
    (l : List (Key × TipSetAndState)) :
    (putEntry k v l).find? (fun p => p.1 = k') =
      if k' = k then some (k, v) else l.find? (fun p => p.1 = k') := by
  induction l with
  | nil =>
    by_cases h : k' = k
    · simp [putEntry, List.find?, h]
    · have h2 : ¬ k = k' := fun hh => h hh.symm
      simp [putEntry, List.find?, h, h2]
  | cons p ps ih =>
    by_cases hp : p.1 = k
    · by_cases h : k' = k
      · simp [putEntry, hp, List.find?, h]
      · have hpk : ¬ p.1 = k' := by rw [hp]; exact fun hh => h hh.symm
        have h2 : ¬ k = k' := fun hh => h hh.symm
        simp [putEntry, hp, List.find?, h, hpk, h2]
    · by_cases hpk : p.1 = k'
      · by_cases h : k' = k
        · exact absurd (hpk.trans h) hp
        · simp [putEntry, hp, List.find?, hpk, h]
      · simp [putEntry, hp, List.find?, hpk, ih]

theorem lookupTS_putTS (S : SyncState) (tsas : TipSetAndState) (k : Key) :
    lookupTS (putTS S tsas).store k =
      if k = tsKey tsas.tipSet then some tsas else lookupTS S.store k := by
  unfold lookupTS putTS
  simp only [find?_putEntry]
  split <;> rfl

theorem lookupTS_putTS_self (S : SyncState) (tsas : TipSetAndState) :
    lookupTS (putTS S tsas).store (tsKey tsas.tipSet) = some tsas := by
  rw [lookupTS_putTS]; simp

theorem lookupTS_isSome_putTS (S : SyncState) (tsas : TipSetAndState) (k : Key)
    (h : (lookupTS S.store k).isSome) :
    (lookupTS (putTS S tsas).store k).isSome := by
  rw [lookupTS_putTS]
  split
  · rfl
  · exact h

theorem syncOnePersist_blocks (S : SyncState) (n : TipSet) (r : StateTree) :
    (syncOnePersist S n r).store.blocks = S.store.blocks := rfl

theorem syncOnePersist_head (S : SyncState) (n : TipSet) (r : StateTree) :
    (syncOnePersist S n r).store.head = S.store.head := rfl

theorem syncOnePersist_bad (S : SyncState) (n : TipSet) (r : StateTree) :
    (syncOnePersist S n r).badTipSets = S.badTipSets := rfl

theorem syncOnePersist_mode (S : SyncState) (n : TipSet) (r : StateTree) :
    (syncOnePersist S n r).syncMode = S.syncMode := rfl

theorem syncOnePersist_widen (S : SyncState) (n : TipSet) (r : StateTree) :
    (syncOnePersist S n r).widenAttempts = S.widenAttempts := rfl

theorem setHead_tipsets (S : SyncState) (n : TipSet) :
    (setHead S n).store.tipsets = S.store.tipsets := rfl

theorem setHead_blocks (S : SyncState) (n : TipSet) :
    (setHead S n).store.blocks = S.store.blocks := rfl

theorem setHead_bad (S : SyncState) (n : TipSet) :
    (setHead S n).badTipSets = S.badTipSets := rfl

theorem setHead_mode (S : SyncState) (n : TipSet) :
    (setHead S n).syncMode = S.syncMode := rfl

theorem setHead_widen (S : SyncState) (n : TipSet) :
    (setHead S n).widenAttempts = S.widenAttempts := rfl

/-- The state a `syncOne` run can end in: unchanged, persisted, or
persisted with the head promoted. -/
theorem syncOne_shape (env : Env) (fuel : Nat) (S : SyncState) (p n : TipSet) :
    (syncOne env fuel S p n).1 = S ∨
      ∃ root, (syncOne env fuel S p n).1 = syncOnePersist S n root ∨
        (syncOne env fuel S p n).1 = setHead (syncOnePersist S n root) n := by
  unfold syncOne
  split
  · exact Or.inl rfl
  · split
    · exact Or.inl rfl
    · rename_i root h
      refine Or.inr ⟨root, ?_⟩
      unfold syncOnePost
      split
      · exact Or.inl rfl
      · exact Or.inl rfl
      · split
        · exact Or.inl rfl
        · exact Or.inr rfl

theorem syncOne_blocks (env : Env) (fuel : Nat) (S : SyncState) (p n : TipSet) :
    (syncOne env fuel S p n).1.store.blocks = S.store.blocks := by
  rcases syncOne_shape env fuel S p n with h | ⟨r, h | h⟩ <;> rw [h] <;> rfl

theorem syncOne_bad (env : Env) (fuel : Nat) (S : SyncState) (p n : TipSet) :
    (syncOne env fuel S p n).1.badTipSets = S.badTipSets := by
  rcases syncOne_shape env fuel S p n with h | ⟨r, h | h⟩ <;> rw [h] <;> rfl

theorem syncOne_mode (env : Env) (fuel : Nat) (S : SyncState) (p n : TipSet) :
    (syncOne env fuel S p n).1.syncMode = S.syncMode := by
  rcases syncOne_shape env fuel S p n with h | ⟨r, h | h⟩ <;> rw [h] <;> rfl

theorem syncOne_widenAttempts (env : Env) (fuel : Nat) (S : SyncState)
    (p n : TipSet) :
    (syncOne env fuel S p n).1.widenAttempts = S.widenAttempts := by
  rcases syncOne_shape env fuel S p n with h | ⟨r, h | h⟩ <;> rw [h] <;> rfl

theorem syncOne_lookup_mono (env : Env) (fuel : Nat) (S : SyncState)
    (p n : TipSet) (k : Key) (h : (lookupTS S.store k).isSome) :
    (lookupTS (syncOne env fuel S p n).1.store k).isSome := by
  rcases syncOne_shape env fuel S p n with hs | ⟨r, hs | hs⟩ <;> rw [hs]
  · exact h
  · exact lookupTS_isSome_putTS (addRoot S r) ⟨n, r⟩ k h
  · show (lookupTS (putTS (addRoot S r) ⟨n, r⟩).store k).isSome
    exact lookupTS_isSome_putTS (addRoot S r) ⟨n, r⟩ k h

/-- The store invariant of the spec: the head pointer names a tipset that
is present in the store. -/
def headInStore (S : SyncState) : Prop :=
  (lookupTS S.store S.store.head).isSome

theorem syncOne_headInStore (env : Env) (fuel : Nat) (S : SyncState)
    (p n : TipSet) (h : headInStore S) :
    headInStore (syncOne env fuel S p n).1 := by
  rcases syncOne_shape env fuel S p n with hs | ⟨r, hs | hs⟩ <;> rw [hs]
  · exact h
  · show (lookupTS (putTS (addRoot S r) ⟨n, r⟩).store
      (putTS (addRoot S r) ⟨n, r⟩).store.head).isSome
    exact lookupTS_isSome_putTS (addRoot S r) ⟨n, r⟩ _ h
  · show (lookupTS (putTS (addRoot S r) ⟨n, r⟩).store (tsKey n)).isSome
    have := lookupTS_putTS_self (addRoot S r) ⟨n, r⟩
    rw [this]
    rfl

/-! ## Preservation lemmas for the forward loop -/

theorem syncLoopRest_blocks (env : Env) (fuel : Nat) (chain : List TipSet) :
    ∀ (S : SyncState) (parent : TipSet),
      (syncLoopRest env fuel S parent chain).1.store.blocks = S.store.blocks := by
  induction chain with
  | nil => intro S parent; rfl
  | cons ts rest ih =>
    intro S parent
    unfold syncLoopRest
    rcases h : syncOne env fuel S parent ts with ⟨S2, r⟩
    have hb : S2.store.blocks = S.store.blocks := by
      have := syncOne_blocks env fuel S parent ts
      rw [h] at this; exact this
    cases r with
    | error e =>
      simp only []
      calc (addChainBad (ts :: rest) S2).store.blocks
            = S2.store.blocks := by rw [addChainBad_store]
        _ = S.store.blocks := hb
    | ok u => simp only []; rw [ih S2 ts, hb]

theorem syncLoopRest_mode (env : Env) (fuel : Nat) (chain : List TipSet) :
    ∀ (S : SyncState) (parent : TipSet),
      (syncLoopRest env fuel S parent chain).1.syncMode = S.syncMode := by
  induction chain with
  | nil => intro S parent; rfl
  | cons ts rest ih =>
    intro S parent
    unfold syncLoopRest
    rcases h : syncOne env fuel S parent ts with ⟨S2, r⟩
    have hb : S2.syncMode = S.syncMode := by
      have := syncOne_mode env fuel S parent ts
      rw [h] at this; exact this
    cases r with
    | error e =>
      simp only []
      rw [addChainBad_mode, hb]
    | ok u => simp only []; rw [ih S2 ts, hb]

theorem syncLoopRest_widenAttempts (env : Env) (fuel : Nat) (chain : List TipSet) :
    ∀ (S : SyncState) (parent : TipSet),
      (syncLoopRest env fuel S parent chain).1.widenAttempts = S.widenAttempts := by
  induction chain with
  | nil => intro S parent; rfl
  | cons ts rest ih =>
    intro S parent
    unfold syncLoopRest
    rcases h : syncOne env fuel S parent ts with ⟨S2, r⟩
    have hb : S2.widenAttempts = S.widenAttempts := by
      have := syncOne_widenAttempts env fuel S parent ts
      rw [h] at this; exact this
    cases r with
    | error e =>
      simp only []
      rw [addChainBad_widen, hb]
    | ok u => simp only []; rw [ih S2 ts, hb]

theorem syncLoopRest_lookup_mono (env : Env) (fuel : Nat) (chain : List TipSet) :
    ∀ (S : SyncState) (parent : TipSet) (k : Key),
      (lookupTS S.store k).isSome →
      (lookupTS (syncLoopRest env fuel S parent chain).1.store k).isSome := by
  induction chain with
  | nil => intro S parent k h; exact h
  | cons ts rest ih =>
    intro S parent k h
    unfold syncLoopRest
    rcases hs : syncOne env fuel S parent ts with ⟨S2, r⟩
    have h2 : (lookupTS S2.store k).isSome := by
      have := syncOne_lookup_mono env fuel S parent ts k h
      rw [hs] at this; exact this
    cases r with
    | error e =>
      simp only []
      rw [addChainBad_store]
      exact h2
    | ok u => simp only []; exact ih S2 ts k h2

theorem syncLoopRest_headInStore (env : Env) (fuel : Nat) (chain : List TipSet) :
    ∀ (S : SyncState) (parent : TipSet), headInStore S →
      headInStore (syncLoopRest env fuel S parent chain).1 := by
  induction chain with
  | nil => intro S parent h; exact h
  | cons ts rest ih =>
    intro S parent h
    unfold syncLoopRest
    rcases hs : syncOne env fuel S parent ts with ⟨S2, r⟩
    have h2 : headInStore S2 := by
      have := syncOne_headInStore env fuel S parent ts h
      rw [hs] at this; exact this
    cases r with
    | error e =>
      simp only []
      show (lookupTS (addChainBad (ts :: rest) S2).store
        (addChainBad (ts :: rest) S2).store.head).isSome
      rw [addChainBad_store]
      exact h2
    | ok u => simp only []; exact ih S2 ts h2

/-! ## Lemmas about the chain collector -/

theorem addBlk_grows (bs : List Block) (b : Block) : bs <+: addBlk bs b := by
  unfold addBlk
  split
  · exact List.prefix_refl bs
  · exact ⟨[b], rfl⟩

theorem addBlks_grows (blks : List Block) :
    ∀ bs : List Block, bs <+: addBlks bs blks := by
  induction blks with
  | nil => intro bs; exact List.prefix_refl bs
  | cons b rest ih =>
    intro bs
    exact (addBlk_grows bs b).trans (ih (addBlk bs b))

theorem getBlks_frame (env : Env) (S : SyncState) (cids : List Nat) :
    (getBlksMaybeFromNet env S cids).1.store.tipsets = S.store.tipsets ∧
    (getBlksMaybeFromNet env S cids).1.store.head = S.store.head ∧
    (getBlksMaybeFromNet env S cids).1.stateStore = S.stateStore ∧
    (getBlksMaybeFromNet env S cids).1.badTipSets = S.badTipSets ∧
    (getBlksMaybeFromNet env S cids).1.syncMode = S.syncMode ∧
    (getBlksMaybeFromNet env S cids).1.widenAttempts = S.widenAttempts := by
  unfold getBlksMaybeFromNet
  split <;> exact ⟨rfl, rfl, rfl, rfl, rfl, rfl⟩

theorem getBlks_blocks_grow (env : Env) (S : SyncState) (cids : List Nat) :
    S.store.blocks <+: (getBlksMaybeFromNet env S cids).1.store.blocks := by
  unfold getBlksMaybeFromNet
  split
  · exact List.prefix_refl _
  · exact addBlks_grows _ _

/-- `collectChain` never touches the primary tipset index, the head
pointer, the state store, the sync mode, or the ghost widening log: it
only fetches blocks and marks bad tipsets. -/
theorem collectChainAux_frame (env : Env) (fuel : Nat) :
    ∀ (S : SyncState) (cids : Key) (chain : List TipSet),
    (collectChainAux env fuel S cids chain).1.store.tipsets = S.store.tipsets ∧
    (collectChainAux env fuel S cids chain).1.store.head = S.store.head ∧
    (collectChainAux env fuel S cids chain).1.stateStore = S.stateStore ∧
    (collectChainAux env fuel S cids chain).1.syncMode = S.syncMode ∧
    (collectChainAux env fuel S cids chain).1.widenAttempts = S.widenAttempts := by
  induction fuel with
  | zero =>
    intro S cids chain
    unfold collectChainAux
    split <;> exact ⟨rfl, rfl, rfl, rfl, rfl⟩
  | succ fuel ih =>
    intro S cids chain
    unfold collectChainAux
    split
    · split
      · exact ⟨rfl, rfl, rfl, rfl, rfl⟩
      · split
        · exact ⟨rfl, rfl, rfl, rfl, rfl⟩
        · split
          · exact ⟨rfl, rfl, rfl, rfl, rfl⟩
          · rename_i Sf blks hg
            have hf := getBlks_frame env S cids
            rw [hg] at hf
            split
            · refine ⟨?_, ?_, ?_, ?_, ?_⟩
              · rw [addChainBad_store, addBad_store]; exact hf.1
              · rw [addChainBad_store, addBad_store]; exact hf.2.1
              · rw [addChainBad_stateStore, addBad_stateStore]; exact hf.2.2.1
              · rw [addChainBad_mode, addBad_mode]; exact hf.2.2.2.2.1
              · rw [addChainBad_widen, addBad_widen]; exact hf.2.2.2.2.2
            · split
              · exact ⟨hf.1, hf.2.1, hf.2.2.1, hf.2.2.2.2.1, hf.2.2.2.2.2⟩
              · exact ⟨(ih _ _ _).1.trans hf.1, (ih _ _ _).2.1.trans hf.2.1,
                  (ih _ _ _).2.2.1.trans hf.2.2.1,
                  (ih _ _ _).2.2.2.1.trans hf.2.2.2.2.1,
                  (ih _ _ _).2.2.2.2.trans hf.2.2.2.2.2⟩
    · exact ⟨rfl, rfl, rfl, rfl, rfl⟩

/-- The blockstore only grows during chain collection. -/
theorem collectChainAux_blocks_grow (env : Env) (fuel : Nat) :
    ∀ (S : SyncState) (cids : Key) (chain : List TipSet),
      S.store.blocks <+: (collectChainAux env fuel S cids chain).1.store.blocks := by
  induction fuel with
  | zero =>
    intro S cids chain
    unfold collectChainAux
    split <;> exact List.prefix_refl _
  | succ fuel ih =>
    intro S cids chain
    unfold collectChainAux
    split
    · split
      · exact List.prefix_refl _
      · split
        · exact List.prefix_refl _
        · split
          · exact List.prefix_refl _
          · rename_i Sf blks hg
            have hpf := getBlks_blocks_grow env S cids
            rw [hg] at hpf
            split
            · rw [show (addChainBad chain (addBad cids Sf)).store
                  = Sf.store by rw [addChainBad_store, addBad_store]]
              exact hpf
            · split
              · exact hpf
              · exact hpf.trans (ih _ _ _)
    · exact List.prefix_refl _

/-- A successful collection returns a chain extending the accumulator
(tipsets are only ever prepended). -/
theorem collectChainAux_suffix (env : Env) (fuel : Nat) :
    ∀ (S : SyncState) (cids : Key) (chain : List TipSet) (S2 : SyncState)
      (res : List TipSet),
      collectChainAux env fuel S cids chain = (S2, .ok res) → chain <:+ res := by
  induction fuel with
  | zero =>
    intro S cids chain S2 res h
    unfold collectChainAux at h
    split at h <;> simp at h
  | succ fuel ih =>
    intro S cids chain S2 res h
    unfold collectChainAux at h
    split at h
    · split at h
      · simp only [Prod.mk.injEq, Except.ok.injEq] at h
        rw [h.2]
      · split at h
        · simp at h
        · split at h
          · simp at h
          · split at h
            · simp at h
            · split at h
              · simp at h
              · exact (List.suffix_cons _ _).trans (ih _ _ _ _ _ h)
    · simp at h

/-! ## Fetched blocks land in the blockstore -/

theorem resolveBlk_cid (env : Env) (cs : ChainStore) (c : Nat) (b : Block)
    (h : resolveBlk env cs c = some b) : b.cid = c := by
  unfold resolveBlk at h
  split at h
  · rename_i b0 hf
    injection h with h
    subst h
    have hp := List.find?_some hf
    exact of_decide_eq_true hp
  · have hp := List.find?_some h
    exact of_decide_eq_true hp

theorem mapM_option_mem {α β : Type} (f : α → Option β) :
    ∀ (l : List α) (ys : List β), l.mapM f = some ys →
      ∀ a ∈ l, ∃ y, f a = some y ∧ y ∈ ys := by
  intro l
  induction l with
  | nil => intro ys _ a ha; cases ha
  | cons x xs ih =>
    intro ys h a ha
    rw [List.mapM_cons] at h
    rcases hx : f x with _ | y
    · rw [hx] at h; cases h
    · rw [hx] at h
      rcases hxs : xs.mapM f with _ | ys0
      · rw [hxs] at h; cases h
      · rw [hxs] at h
        cases h
        rcases List.mem_cons.mp ha with rfl | ha
        · exact ⟨y, hx, List.mem_cons_self _ _⟩
        · rcases ih ys0 hxs a ha with ⟨y2, hy2, hmem⟩
          exact ⟨y2, hy2, List.mem_cons_of_mem _ hmem⟩

/-- One cid being resolvable survives adding further blocks. -/
theorem addBlk_any_mono (bs : List Block) (x : Block) (c : Nat)
    (h : bs.any (fun b => b.cid = c) = true) :
    (addBlk bs x).any (fun b => b.cid = c) = true := by
  unfold addBlk
  split
  · exact h
  · rw [List.any_append]; rw [h]; rfl

theorem addBlks_any_mono (blks : List Block) :
    ∀ (bs : List Block) (c : Nat), bs.any (fun b => b.cid = c) = true →
      (addBlks bs blks).any (fun b => b.cid = c) = true := by
  induction blks with
  | nil => intro bs c h; exact h
  | cons x rest ih =>
    intro bs c h
    exact ih (addBlk bs x) c (addBlk_any_mono bs x c h)

theorem addBlk_any_self (bs : List Block) (x : Block) :
    (addBlk bs x).any (fun b => b.cid = x.cid) = true := by
  unfold addBlk
  split
  · assumption
  · rw [List.any_append]
    have : [x].any (fun b => b.cid = x.cid) = true := by simp
    rw [this]
    exact Bool.or_true _

theorem addBlks_any_of_mem (blks : List Block) :
    ∀ (bs : List Block) (y : Block), y ∈ blks →
      (addBlks bs blks).any (fun b => b.cid = y.cid) = true := by
  induction blks with
  | nil => intro bs y hy; cases hy
  | cons x rest ih =>
    intro bs y hy
    rcases List.mem_cons.mp hy with rfl | hy
    · exact addBlks_any_mono rest (addBlk bs y) y.cid (addBlk_any_self bs y)
    · exact ih (addBlk bs x) y hy

theorem hasAllBlocks_mono (cs cs2 : ChainStore) (cids : List Nat)
    (hsub : ∀ b, b ∈ cs.blocks → b ∈ cs2.blocks)
    (h : hasAllBlocks cs cids = true) : hasAllBlocks cs2 cids = true := by
  unfold hasAllBlocks at h ⊢
  rw [List.all_eq_true] at h ⊢
  intro c hc
  have h2 := h c hc
  rw [List.any_eq_true] at h2 ⊢
  obtain ⟨b, hb, hbc⟩ := h2
  exact ⟨b, hsub b hb, hbc⟩

/-- A successful fetch leaves every requested cid resolvable in the
blockstore. -/
theorem getBlks_ok_hasAll (env : Env) (S : SyncState) (cids : List Nat)
    (Sf : SyncState) (blks : List Block)
    (h : getBlksMaybeFromNet env S cids = (Sf, .ok blks)) :
    hasAllBlocks Sf.store cids = true := by
  unfold getBlksMaybeFromNet at h
  split at h
  · simp at h
  · rename_i blks0 hres
    rw [Prod.mk.injEq] at h
    obtain ⟨h1, h2⟩ := h
    subst h1
    unfold resolveBlks at hres
    unfold hasAllBlocks
    rw [List.all_eq_true]
    intro c hc
    obtain ⟨y, hy, hmem⟩ := mapM_option_mem (resolveBlk env S.store) cids blks0 hres c hc
    have hcid := resolveBlk_cid env S.store c y hy
    have hany := addBlks_any_of_mem blks0 S.store.blocks y hmem
    rw [hcid] at hany
    exact hany

/-- First-iteration dichotomy of a top-level collection: either the cids of
the candidate key were fetched into the blockstore, or the state is
untouched and any successful result is the empty chain. -/
theorem collectChainAux_top (env : Env) (fuel : Nat) (S : SyncState) (K : Key)
    (S2 : SyncState) (r : Except SyncErr (List TipSet))
    (h : collectChainAux env fuel S K [] = (S2, r)) :
    hasAllBlocks S2.store K = true ∨
      (S2 = S ∧ ∀ res, r = .ok res → res = []) := by
  cases fuel with
  | zero =>
    unfold collectChainAux at h
    split at h <;>
      · rw [Prod.mk.injEq] at h
        obtain ⟨h1, h2⟩ := h
        subst h1; subst h2
        exact Or.inr ⟨rfl, fun res hres => by cases hres⟩
  | succ fuel =>
    unfold collectChainAux at h
    split at h
    · split at h
      · rw [Prod.mk.injEq] at h
        obtain ⟨h1, h2⟩ := h
        subst h1; subst h2
        refine Or.inr ⟨rfl, fun res hres => ?_⟩
        injection hres with hres
        exact hres.symm
      · split at h
        · rw [Prod.mk.injEq] at h
          obtain ⟨h1, h2⟩ := h
          subst h1; subst h2
          exact Or.inr ⟨rfl, fun res hres => by cases hres⟩
        · split at h
          · rw [Prod.mk.injEq] at h
            obtain ⟨h1, h2⟩ := h
            subst h1; subst h2
            exact Or.inr ⟨rfl, fun res hres => by cases hres⟩
          · rename_i Sf blks hg
            have hA := getBlks_ok_hasAll env S K Sf blks hg
            split at h
            · rw [Prod.mk.injEq] at h
              obtain ⟨h1, h2⟩ := h
              subst h1; subst h2
              refine Or.inl ?_
              show hasAllBlocks (addChainBad [] (addBad K Sf)).store K = true
              rw [show (addChainBad [] (addBad K Sf)).store = Sf.store by
                rw [show addChainBad [] (addBad K Sf) = addBad K Sf from rfl,
                  addBad_store]]
              exact hA
            · split at h
              · rw [Prod.mk.injEq] at h
                obtain ⟨h1, h2⟩ := h
                subst h1; subst h2
                exact Or.inl hA
              · rename_i tsv hv hx pcids hp
                refine Or.inl ?_
                have hpre := collectChainAux_blocks_grow env fuel Sf pcids [tsv]
                rw [h] at hpre
                exact hasAllBlocks_mono Sf.store S2.store K
                  (fun b hb => hpre.subset hb) hA
    · rw [Prod.mk.injEq] at h
      obtain ⟨h1, h2⟩ := h
      subst h1; subst h2
      exact Or.inr ⟨rfl, fun res hres => by cases hres⟩

theorem pushWiden_store (S : SyncState) (ts : TipSet) :
    (pushWiden S ts).store = S.store := rfl

/-- Processing a chain never touches the blockstore: only the collector
fetches blocks. -/
theorem processChain_blocks (env : Env) (fuel : Nat) (S : SyncState)
    (parent : TipSet) (chain : List TipSet) :
    (processChain env fuel S parent chain).1.store.blocks = S.store.blocks := by
  unfold processChain
  split
  · rfl
  · rename_i c0 rest
    split
    · rfl
    · rw [syncLoopRest_blocks]
      rfl
    · rename_i hscr wts hw
      rcases hs : syncOne env fuel (pushWiden S c0) parent wts with ⟨S2, r⟩
      have hb := syncOne_blocks env fuel (pushWiden S c0) parent wts
      rw [hs] at hb
      cases r
      · exact hb
      · rw [syncLoopRest_blocks]
        exact hb

/-- `collectChainAux_top` restated for the entry point. -/
theorem collectChain_top (env : Env) (fuel : Nat) (S : SyncState) (K : Key)
    (S2 : SyncState) (r : Except SyncErr (List TipSet))
    (h : collectChain env fuel S K = (S2, r)) :
    hasAllBlocks S2.store K = true ∨
      (S2 = S ∧ ∀ res, r = .ok res → res = []) :=
  collectChainAux_top env fuel S K S2 r h

/-- After a `HandleNewTipset` call the state is either untouched or has
every block of the candidate key in the blockstore. -/
theorem HandleNewTipset_post (env : Env) (fuel : Nat) (S : SyncState) (K : Key) :
    (HandleNewTipset env fuel S K).1 = S ∨
      hasAllBlocks (HandleNewTipset env fuel S K).1.store K = true := by
  unfold HandleNewTipset
  split
  · exact Or.inl rfl
  · split
    · rename_i S1 e hc
      rcases collectChain_top env fuel S K S1 (.error e) hc with hA | ⟨hS, _⟩
      · exact Or.inr hA
      · exact Or.inl hS
    · rename_i S1 chain hc
      split
      · rcases collectChain_top env fuel S K S1 (.ok []) hc with hA | ⟨hS, _⟩
        · exact Or.inr hA
        · exact Or.inl hS
      · rename_i c0 tail
        have hA : hasAllBlocks S1.store K = true := by
          rcases collectChain_top env fuel S K S1 (.ok (c0 :: tail)) hc
            with hA | ⟨_, hok⟩
          · exact hA
          · cases hok (c0 :: tail) rfl
        split
        · exact Or.inr hA
        · split
          · exact Or.inr hA
          · split
            · rename_i ptsas hlook hx S2 e2 hproc
              have hb := processChain_blocks env fuel S1 ptsas.tipSet (c0 :: tail)
              rw [hproc] at hb
              exact Or.inr (hasAllBlocks_mono S1.store S2.store K
                (fun b hbm => by rw [hb]; exact hbm) hA)
            · rename_i ptsas hlook hx S2 u hproc
              have hb := processChain_blocks env fuel S1 ptsas.tipSet (c0 :: tail)
              rw [hproc] at hb
              exact Or.inr (hasAllBlocks_mono S1.store S2.store K
                (fun b hbm => by rw [hb]; exact hbm) hA)

/-- The short-circuit of `HandleNewTipset`: when the store has all the
candidate blocks the call is a successful no-op. -/
theorem HandleNewTipset_of_hasAll (env : Env) (fuel : Nat) (S : SyncState)
    (K : Key) (h : hasAllBlocks S.store K = true) :
    HandleNewTipset env fuel S K = (S, SyncResult.ok) := by
  unfold HandleNewTipset
  rw [if_pos h]

/-- C7: `HandleNewTipset(K)` called twice in succession with no intervening
state change has the same final effect on the syncer state (store, head
pointer, bad-tipset cache) as calling it once; and when the store already
contains all blocks referenced by `K`, the call returns success immediately
with no side effects. -/
theorem claim7_HandleNewTipset_idempotent (env : Env) (fuel : Nat)
    (S : SyncState) (K : Key) :
    (HandleNewTipset env fuel (HandleNewTipset env fuel S K).1 K).1
        = (HandleNewTipset env fuel S K).1 ∧
      (hasAllBlocks S.store K = true →
        HandleNewTipset env fuel S K = (S, SyncResult.ok)) := by
  constructor
  · rcases HandleNewTipset_post env fuel S K with hS | hA
    · rw [hS]
      exact hS
    · rw [HandleNewTipset_of_hasAll env fuel _ K hA]
  · exact HandleNewTipset_of_hasAll env fuel S K

/-- Witness for the idempotence claim at a concrete state: the two-block
scenario in which the candidate is fetched from the network and synced. -/
def egGenesisBlock : Block := ⟨1, [], 0⟩

def egNextBlock : Block := ⟨2, [1], 1⟩

def egStore : ChainStore :=
  ⟨[([1], ⟨[egGenesisBlock], 10⟩)], [1], [egGenesisBlock]⟩

def egState : SyncState := ⟨egStore, [10], [], SyncMode.syncing, []⟩

def egEnv : Env :=
  ⟨[egNextBlock],
   fun blks => if blks.isEmpty then .error (.consensusFailure 0) else .ok blks,
   fun _ _ st => .ok (st + 1),
   fun _ _ _ _ => .ok true⟩

def egStateFull : SyncState :=
  ⟨⟨[([1], ⟨[egGenesisBlock], 10⟩)], [1], [egGenesisBlock, egNextBlock]⟩,
    [10], [], SyncMode.syncing, []⟩

theorem claim7_witness :
    ((HandleNewTipset egEnv 10 (HandleNewTipset egEnv 10 egState [2]).1 [2]).1
        = (HandleNewTipset egEnv 10 egState [2]).1 ∧
      (hasAllBlocks egState.store [2] = true →
        HandleNewTipset egEnv 10 egState [2] = (egState, SyncResult.ok))) ∧
    hasAllBlocks egStateFull.store [2] = true ∧
    HandleNewTipset egEnv 10 egStateFull [2] = (egStateFull, SyncResult.ok) :=
  ⟨claim7_HandleNewTipset_idempotent egEnv 10 egState [2],
    by decide,
    (claim7_HandleNewTipset_idempotent egEnv 10 egStateFull [2]).2 (by decide)⟩

/-! ## Bad-tipset cache membership lemmas -/

theorem addBad_mem_self (k : Key) (S : SyncState) : k ∈ (addBad k S).badTipSets := by
  unfold addBad
  split
  · assumption
  · exact List.mem_append_right _ (List.mem_singleton.mpr rfl)

theorem addBad_mem_mono (k k2 : Key) (S : SyncState) (h : k2 ∈ S.badTipSets) :
    k2 ∈ (addBad k S).badTipSets := by
  unfold addBad
  split
  · exact h
  · exact List.mem_append_left _ h

theorem addChainBad_mem_mono (chain : List TipSet) :
    ∀ (S : SyncState) (k : Key), k ∈ S.badTipSets →
      k ∈ (addChainBad chain S).badTipSets := by
  induction chain with
  | nil => intro S k h; exact h
  | cons t rest ih =>
    intro S k h
    exact ih (addBad (tsKey t) S) k (addBad_mem_mono (tsKey t) k S h)

theorem addChainBad_mem_of_mem (chain : List TipSet) :
    ∀ (S : SyncState) (ts : TipSet), ts ∈ chain →
      tsKey ts ∈ (addChainBad chain S).badTipSets := by
  induction chain with
  | nil => intro S ts h; cases h
  | cons t rest ih =>
    intro S ts h
    rcases List.mem_cons.mp h with rfl | h
    · exact addChainBad_mem_mono rest (addBad (tsKey ts) S) (tsKey ts)
        (addBad_mem_self (tsKey ts) S)
    · exact ih (addBad (tsKey t) S) ts h

/-- C2: the backward walk of `collectChain` continues only while the sync
mode is `Syncing` or fewer than `FinalityLimit` tipsets have been
collected; `FinalityLimit` is 600; when neither condition holds the walk
fails with `NewChainTooLong` returning no tipsets and leaving the state
untouched; and no `collectChain` call ever writes the chain store's
tipset index or head pointer. -/
theorem claim2_collectChain_finality :
    FinalityLimit = 600 ∧
    (∀ (env : Env) (fuel : Nat) (S : SyncState) (cids : Key)
        (chain : List TipSet),
      S.syncMode ≠ SyncMode.syncing → ¬ chain.length < FinalityLimit →
      collectChainAux env fuel S cids chain
        = (S, .error .newChainTooLong)) ∧
    (∀ (env : Env) (fuel : Nat) (S : SyncState) (cids : Key)
        (chain : List TipSet),
      (collectChainAux env fuel S cids chain).1.store.tipsets
          = S.store.tipsets ∧
      (collectChainAux env fuel S cids chain).1.store.head
          = S.store.head) := by
  refine ⟨rfl, ?_, ?_⟩
  · intro env fuel S cids chain hmode hlen
    have hc : ¬ (S.syncMode = SyncMode.syncing ∨ chain.length < FinalityLimit) := by
      rintro (h | h)
      · exact hmode h
      · exact hlen h
    cases fuel with
    | zero =>
      unfold collectChainAux
      rw [if_neg hc]
    | succ fuel =>
      unfold collectChainAux
      rw [if_neg hc]
  · intro env fuel S cids chain
    exact ⟨(collectChainAux_frame env fuel S cids chain).1,
      (collectChainAux_frame env fuel S cids chain).2.1⟩

def egCaughtUp : SyncState := ⟨egStore, [10], [], SyncMode.caughtUp, []⟩

theorem claim2_witness :
    egCaughtUp.syncMode ≠ SyncMode.syncing ∧
    ¬ (List.replicate 600 ([] : TipSet)).length < FinalityLimit ∧
    collectChainAux egEnv 3 egCaughtUp [2] (List.replicate 600 ([] : TipSet))
      = (egCaughtUp, .error .newChainTooLong) :=
  ⟨by decide,
   by rw [List.length_replicate]; exact Nat.lt_irrefl 600,
   claim2_collectChain_finality.2.1 egEnv 3 egCaughtUp [2]
     (List.replicate 600 ([] : TipSet)) (by decide)
     (by rw [List.length_replicate]; exact Nat.lt_irrefl 600)⟩

/-- C6: when `consensus.NewValidTipSet` fails on the blocks fetched for the
current cursor, the cursor's key and the key of every tipset already
collected in that call are added to the bad-tipset cache, `collectChain`
returns the error, and the chain store (tipset index and head) is
unchanged. -/
theorem claim6_newValidTipSet_failure (env : Env) (fuel : Nat) (S Sf : SyncState)
    (cids : Key) (chain : List TipSet) (blks : List Block) (e : SyncErr)
    (hmode : S.syncMode = SyncMode.syncing ∨ chain.length < FinalityLimit)
    (hno : (lookupTS S.store cids).isSome = false)
    (hbad : cids ∉ S.badTipSets)
    (hfetch : getBlksMaybeFromNet env S cids = (Sf, .ok blks))
    (hnvt : env.newValidTipSet blks = .error e) :
    collectChainAux env (fuel + 1) S cids chain
        = (addChainBad chain (addBad cids Sf), .error e) ∧
    cids ∈ (collectChainAux env (fuel + 1) S cids chain).1.badTipSets ∧
    (∀ ts ∈ chain,
      tsKey ts ∈ (collectChainAux env (fuel + 1) S cids chain).1.badTipSets) ∧
    (collectChainAux env (fuel + 1) S cids chain).1.store.tipsets
        = S.store.tipsets ∧
    (collectChainAux env (fuel + 1) S cids chain).1.store.head
        = S.store.head := by
  have h1 : collectChainAux env (fuel + 1) S cids chain
      = (addChainBad chain (addBad cids Sf), .error e) := by
    unfold collectChainAux
    rw [if_pos hmode, if_neg (by rw [hno]; exact Bool.false_ne_true),
      if_neg hbad, hfetch]
    simp only [hnvt]
  refine ⟨h1, ?_, ?_, ?_, ?_⟩
  · rw [h1]
    exact addChainBad_mem_mono chain (addBad cids Sf) cids
      (addBad_mem_self cids Sf)
  · intro ts hts
    rw [h1]
    exact addChainBad_mem_of_mem chain (addBad cids Sf) ts hts
  · rw [h1]
    show (addChainBad chain (addBad cids Sf)).store.tipsets = S.store.tipsets
    rw [addChainBad_store, addBad_store]
    have hf := getBlks_frame env S cids
    rw [hfetch] at hf
    exact hf.1
  · rw [h1]
    show (addChainBad chain (addBad cids Sf)).store.head = S.store.head
    rw [addChainBad_store, addBad_store]
    have hf := getBlks_frame env S cids
    rw [hfetch] at hf
    exact hf.2.1

def egEnvBadNVT : Env :=
  ⟨[egNextBlock],
   fun _ => .error (.consensusFailure 3),
   fun _ _ st => .ok (st + 1),
   fun _ _ _ _ => .ok true⟩

theorem claim6_witness :
    getBlksMaybeFromNet egEnvBadNVT egState [2] = (egStateFull, .ok [egNextBlock]) ∧
    egEnvBadNVT.newValidTipSet [egNextBlock] = .error (.consensusFailure 3) ∧
    collectChainAux egEnvBadNVT 4 egState [2] []
        = (addChainBad [] (addBad [2] egStateFull), .error (.consensusFailure 3)) ∧
    [2] ∈ (collectChainAux egEnvBadNVT 4 egState [2] []).1.badTipSets :=
  ⟨rfl, rfl,
   (claim6_newValidTipSet_failure egEnvBadNVT 3 egState egStateFull [2] []
     [egNextBlock] (.consensusFailure 3) (Or.inl rfl) (by decide) (by decide)
     rfl rfl).1,
   (claim6_newValidTipSet_failure egEnvBadNVT 3 egState egStateFull [2] []
     [egNextBlock] (.consensusFailure 3) (Or.inl rfl) (by decide) (by decide)
     rfl rfl).2.1⟩

/-- A successful collection that returns the empty chain can only arise
from the first iteration finding the cursor already in the store. -/
theorem collectChainAux_ok_nil (env : Env) (fuel : Nat) (S : SyncState)
    (cids : Key) (chain : List TipSet) (S2 : SyncState)
    (h : collectChainAux env fuel S cids chain = (S2, .ok [])) :
    chain = [] ∧ (lookupTS S.store cids).isSome = true ∧ S2 = S := by
  cases fuel with
  | zero =>
    unfold collectChainAux at h
    split at h <;> simp at h
  | succ fuel =>
    unfold collectChainAux at h
    split at h
    · split at h
      · rename_i hlook
        rw [Prod.mk.injEq, Except.ok.injEq] at h
        exact ⟨h.2, hlook, h.1.symm⟩
      · split at h
        · simp at h
        · split at h
          · simp at h
          · split at h
            · simp at h
            · split at h
              · simp at h
              · have hsuf := collectChainAux_suffix env fuel _ _ _ _ _ h
                cases List.suffix_nil.mp hsuf
    · simp at h

/-- C9: when `HasTipSetAndState` holding for the candidate key implies
`HasAllBlocks` for its cids, `HandleNewTipset` never runs into the
out-of-bounds access on an empty collected chain; in particular when the
candidate's blocks are not all present, a successful `collectChain`
returns a non-empty chain. -/
theorem claim9_no_empty_chain_panic (env : Env) (fuel : Nat) (S : SyncState)
    (K : Key)
    (hinv : (lookupTS S.store K).isSome = true → hasAllBlocks S.store K = true) :
    (HandleNewTipset env fuel S K).2 ≠ SyncResult.panicked ∧
    (∀ (S2 : SyncState) (res : List TipSet),
      hasAllBlocks S.store K = false →
      collectChain env fuel S K = (S2, .ok res) → res ≠ []) := by
  constructor
  · unfold HandleNewTipset
    split
    · intro hcon
      cases hcon
    · rename_i hNA
      split
      · intro hcon
        cases hcon
      · rename_i S1 chain hc
        split
        · obtain ⟨_, hlook, _⟩ := collectChainAux_ok_nil env fuel S K [] S1 hc
          exact absurd (hinv hlook) hNA
        · rename_i c0 tail
          split
          · intro hcon; cases hcon
          · split
            · intro hcon; cases hcon
            · split
              · intro hcon; cases hcon
              · intro hcon; cases hcon
  · intro S2 res hNA hc hres
    subst hres
    obtain ⟨_, hlook, _⟩ := collectChainAux_ok_nil env fuel S K [] S2 hc
    rw [hinv hlook] at hNA
    cases hNA

theorem claim9_witness :
    ((lookupTS egState.store [2]).isSome = true →
        hasAllBlocks egState.store [2] = true) ∧
    (HandleNewTipset egEnv 10 egState [2]).2 ≠ SyncResult.panicked :=
  have hinv : (lookupTS egState.store [2]).isSome = true →
      hasAllBlocks egState.store [2] = true :=
    fun h => absurd h (by decide)
  ⟨hinv, (claim9_no_empty_chain_panic egEnv 10 egState [2] hinv).1⟩

/-- C1: in `syncOne(parent, next)`, once `next` passes the state transition
(`syncOnePre` succeeding with state root `root`) and is persisted, a
successful run updates the head to `next` exactly when the `IsHeavier`
decision is positive; a negative decision yields success with the head
unchanged while `(next, root)` remains stored. -/
theorem claim1_syncOne_head_iff (env : Env) (fuel : Nat) (S S1 : SyncState)
    (parent next : TipSet) (root : StateTree)
    (hne : S.store.head ≠ tsKey next)
    (hpre : syncOnePre env fuel S parent next = .ok root)
    (hS1 : S1 = syncOnePersist S next root) :
    lookupTS (syncOne env fuel S parent next).1.store (tsKey next)
        = some ⟨next, root⟩ ∧
    ((syncOne env fuel S parent next).2 = .ok () →
      ((syncOne env fuel S parent next).1.store.head = tsKey next ↔
        syncOneDecision env S1 S.store.head parent next = .ok true)) ∧
    (syncOneDecision env S1 S.store.head parent next = .ok false →
      syncOne env fuel S parent next = (S1, .ok ()) ∧
        S1.store.head = S.store.head) := by
  subst hS1
  have hs : syncOne env fuel S parent next
      = syncOnePost env fuel (syncOnePersist S next root) S.store.head
          parent next := by
    unfold syncOne
    rw [if_neg hne, hpre]
  rw [hs]
  rcases hd : syncOneDecision env (syncOnePersist S next root) S.store.head
      parent next with e | b
  · have hpost : syncOnePost env fuel (syncOnePersist S next root)
        S.store.head parent next = (syncOnePersist S next root, .error e) := by
      unfold syncOnePost
      rw [hd]
    rw [hpost]
    refine ⟨lookupTS_putTS_self (addRoot S root) ⟨next, root⟩, ?_, ?_⟩
    · intro h
      cases h
    · intro h
      cases h
  · cases b
    · have hpost : syncOnePost env fuel (syncOnePersist S next root)
          S.store.head parent next = (syncOnePersist S next root, .ok ()) := by
        unfold syncOnePost
        rw [hd]
      rw [hpost]
      refine ⟨lookupTS_putTS_self (addRoot S root) ⟨next, root⟩, ?_, ?_⟩
      · intro _
        constructor
        · intro hh
          exact absurd hh hne
        · intro hh
          cases hh
      · intro _
        exact ⟨rfl, rfl⟩
    · rcases ha : collectAncestors (syncOnePersist S next root) fuel parent
        with e2 | l
      · have hpost : syncOnePost env fuel (syncOnePersist S next root)
            S.store.head parent next
              = (syncOnePersist S next root, .error e2) := by
          unfold syncOnePost
          rw [hd, ha]
        rw [hpost]
        refine ⟨lookupTS_putTS_self (addRoot S root) ⟨next, root⟩, ?_, ?_⟩
        · intro h
          cases h
        · intro h
          cases h
      · have hpost : syncOnePost env fuel (syncOnePersist S next root)
            S.store.head parent next
              = (setHead (syncOnePersist S next root) next, .ok ()) := by
          unfold syncOnePost
          rw [hd, ha]
        rw [hpost]
        refine ⟨lookupTS_putTS_self (addRoot S root) ⟨next, root⟩, ?_, ?_⟩
        · intro _
          exact ⟨fun _ => rfl, fun _ => rfl⟩
        · intro h
          cases h

theorem claim1_witness :
    syncOnePre egEnv 10 egState [egGenesisBlock] [egNextBlock] = .ok 11 ∧
    egState.store.head ≠ tsKey [egNextBlock] ∧
    lookupTS (syncOne egEnv 10 egState [egGenesisBlock] [egNextBlock]).1.store
        (tsKey [egNextBlock]) = some ⟨[egNextBlock], 11⟩ ∧
    ((syncOne egEnv 10 egState [egGenesisBlock] [egNextBlock]).2 = .ok () →
      ((syncOne egEnv 10 egState [egGenesisBlock] [egNextBlock]).1.store.head
          = tsKey [egNextBlock] ↔
        syncOneDecision egEnv (syncOnePersist egState [egNextBlock] 11)
          egState.store.head [egGenesisBlock] [egNextBlock] = .ok true)) :=
  ⟨rfl, by decide,
   (claim1_syncOne_head_iff egEnv 10 egState
     (syncOnePersist egState [egNextBlock] 11) [egGenesisBlock] [egNextBlock]
     11 (by decide) rfl rfl).1,
   (claim1_syncOne_head_iff egEnv 10 egState
     (syncOnePersist egState [egNextBlock] 11) [egGenesisBlock] [egNextBlock]
     11 (by decide) rfl rfl).2.1⟩

/-- C8: in the weight comparison of `syncOne`, when the current head tipset
has an empty parent set (the head is the genesis tipset), the head-parent
state argument handed to `consensus.IsHeavier` is the empty (`none`) state
tree. -/
theorem claim8_genesis_head_parent_state (env : Env) (S1 : SyncState)
    (head : Key) (parent next : TipSet) (hts : TipSetAndState)
    (hl : lookupTS S1.store head = some hts)
    (hpc : tsParents hts.tipSet = .ok []) :
    syncOneDecision env S1 head parent next
      = match tipSetState S1 (tsKey parent) with
        | .error e => .error e
        | .ok nps => env.isHeavier next hts.tipSet nps none := by
  unfold syncOneDecision weighInputs
  rcases hst : tipSetState S1 (tsKey parent) with e | nps
  · rfl
  · simp only [hl, hpc, List.isEmpty_nil, if_true]

theorem claim8_witness :
    lookupTS (syncOnePersist egState [egNextBlock] 11).store [1]
        = some ⟨[egGenesisBlock], 10⟩ ∧
    tsParents ([egGenesisBlock] : TipSet) = .ok [] ∧
    syncOneDecision egEnv (syncOnePersist egState [egNextBlock] 11) [1]
        [egGenesisBlock] [egNextBlock]
      = match tipSetState (syncOnePersist egState [egNextBlock] 11)
            (tsKey [egGenesisBlock]) with
        | .error e => .error e
        | .ok nps =>
          egEnv.isHeavier [egNextBlock] [egGenesisBlock] nps none :=
  ⟨rfl, rfl,
   claim8_genesis_head_parent_state egEnv
     (syncOnePersist egState [egNextBlock] 11) [1] [egGenesisBlock]
     [egNextBlock] ⟨[egGenesisBlock], 10⟩ rfl rfl⟩

theorem headInStore_of_frame (S S2 : SyncState)
    (ht : S2.store.tipsets = S.store.tipsets)
    (hh : S2.store.head = S.store.head) (h : headInStore S) :
    headInStore S2 := by
  unfold headInStore lookupTS at h ⊢
  rw [ht, hh]
  exact h

theorem collectChain_frame (env : Env) (fuel : Nat) (S : SyncState) (K : Key) :
    (collectChain env fuel S K).1.store.tipsets = S.store.tipsets ∧
    (collectChain env fuel S K).1.store.head = S.store.head :=
  ⟨(collectChainAux_frame env fuel S K []).1,
   (collectChainAux_frame env fuel S K []).2.1⟩

theorem processChain_headInStore (env : Env) (fuel : Nat) (S : SyncState)
    (parent : TipSet) (chain : List TipSet) (h : headInStore S) :
    headInStore (processChain env fuel S parent chain).1 := by
  unfold processChain
  split
  · exact h
  · rename_i c0 rest
    split
    · exact h
    · exact syncLoopRest_headInStore env fuel (c0 :: rest) (pushWiden S c0)
        parent h
    · rename_i hscr wts hw
      rcases hs : syncOne env fuel (pushWiden S c0) parent wts with ⟨S2, r⟩
      have h2 : headInStore S2 := by
        have hp := syncOne_headInStore env fuel (pushWiden S c0) parent wts h
        rw [hs] at hp
        exact hp
      cases r
      · exact h2
      · exact syncLoopRest_headInStore env fuel (c0 :: rest) S2 parent h2

theorem HandleNewTipset_headInStore (env : Env) (fuel : Nat) (S : SyncState)
    (K : Key) (h : headInStore S) :
    headInStore (HandleNewTipset env fuel S K).1 := by
  unfold HandleNewTipset
  split
  · exact h
  · split
    · rename_i S1 e hc
      have hf := collectChain_frame env fuel S K
      rw [hc] at hf
      exact headInStore_of_frame S S1 hf.1 hf.2 h
    · rename_i S1 chain hc
      have hf := collectChain_frame env fuel S K
      rw [hc] at hf
      have h1 : headInStore S1 := headInStore_of_frame S S1 hf.1 hf.2 h
      split
      · exact h1
      · rename_i c0 tail
        split
        · exact h1
        · split
          · exact h1
          · split
            · rename_i ptsas hlook hx S2 e2 hproc
              have hp := processChain_headInStore env fuel S1 ptsas.tipSet
                (c0 :: tail) h1
              rw [hproc] at hp
              exact hp
            · rename_i ptsas hlook hx S2 u hproc
              have hp := processChain_headInStore env fuel S1 ptsas.tipSet
                (c0 :: tail) h1
              rw [hproc] at hp
              exact hp

/-- C3: every syncer operation preserves the invariant that the head key
names a tipset present in the store: in `syncOne` the tipset is persisted
(`syncOnePersist`, i.e. `PutTipSetAndState`) before any `SetHead`, and
`SetHead` is only invoked with that just-persisted tipset, so both
`syncOne` and a whole `HandleNewTipset` call keep `GetHead()` pointing at
a stored tipset. -/
theorem claim3_head_in_store (env : Env) (fuel : Nat) :
    (∀ (S : SyncState) (parent next : TipSet), headInStore S →
      headInStore (syncOne env fuel S parent next).1) ∧
    (∀ (S : SyncState) (K : Key), headInStore S →
      headInStore (HandleNewTipset env fuel S K).1) :=
  ⟨fun S p n h => syncOne_headInStore env fuel S p n h,
   fun S K h => HandleNewTipset_headInStore env fuel S K h⟩

theorem claim3_witness :
    headInStore egState ∧
    headInStore (HandleNewTipset egEnv 10 egState [2]).1 ∧
    headInStore (syncOne egEnv 10 egState [egGenesisBlock] [egNextBlock]).1 :=
  ⟨rfl,
   (claim3_head_in_store egEnv 10).2 egState [2] rfl,
   (claim3_head_in_store egEnv 10).1 egState [egGenesisBlock] [egNextBlock]
     rfl⟩

/-- C5: if `syncOne` fails on an element of the collected chain during the
forward loop, the loop returns that error, the failing tipset's key and the
key of every later tipset of the chain are in the bad-tipset cache, and
every tipset present in the store before the failing call (in particular
everything persisted by the earlier successful `syncOne` calls of the same
invocation) is still in the store. -/
theorem claim5_syncOne_failure_marks_bad (env : Env) (fuel : Nat) :
    ∀ (chain : List TipSet) (S S2 : SyncState) (parent : TipSet) (e : SyncErr),
      syncLoopRest env fuel S parent chain = (S2, .error e) →
      ∃ (pre post : List TipSet) (ts p2 : TipSet) (Spre Sfail : SyncState),
        chain = pre ++ ts :: post ∧
        syncOne env fuel Spre p2 ts = (Sfail, .error e) ∧
        S2 = addChainBad (ts :: post) Sfail ∧
        tsKey ts ∈ S2.badTipSets ∧
        (∀ t ∈ post, tsKey t ∈ S2.badTipSets) ∧
        (∀ k, (lookupTS Spre.store k).isSome → (lookupTS S2.store k).isSome) ∧
        (∀ k, (lookupTS S.store k).isSome → (lookupTS S2.store k).isSome) := by
  intro chain
  induction chain with
  | nil =>
    intro S S2 parent e h
    unfold syncLoopRest at h
    simp at h
  | cons ts rest ih =>
    intro S S2 parent e h
    unfold syncLoopRest at h
    rcases hs : syncOne env fuel S parent ts with ⟨Sf, r⟩
    rw [hs] at h
    cases r with
    | error e2 =>
      have h2 : (addChainBad (ts :: rest) Sf, (Except.error e2 : Except SyncErr Unit))
          = (S2, Except.error e) := h
      rw [Prod.mk.injEq] at h2
      obtain ⟨hS2, he⟩ := h2
      injection he with he
      subst he
      subst hS2
      refine ⟨[], rest, ts, parent, S, Sf, rfl, hs, rfl, ?_, ?_, ?_, ?_⟩
      · exact addChainBad_mem_of_mem (ts :: rest) Sf ts (List.mem_cons_self _ _)
      · intro t ht
        exact addChainBad_mem_of_mem (ts :: rest) Sf t (List.mem_cons_of_mem _ ht)
      · intro k hk
        have hm := syncOne_lookup_mono env fuel S parent ts k hk
        rw [hs] at hm
        show (lookupTS (addChainBad (ts :: rest) Sf).store k).isSome
        rw [addChainBad_store]
        exact hm
      · intro k hk
        have hm := syncOne_lookup_mono env fuel S parent ts k hk
        rw [hs] at hm
        show (lookupTS (addChainBad (ts :: rest) Sf).store k).isSome
        rw [addChainBad_store]
        exact hm
    | ok u =>
      have h2 : syncLoopRest env fuel Sf ts rest = (S2, Except.error e) := h
      obtain ⟨pre, post, ts2, p2, Spre, Sfail, hchain, hsync, hS2, hm1, hm2,
        hmono, hmonoS⟩ := ih Sf S2 ts e h2
      refine ⟨ts :: pre, post, ts2, p2, Spre, Sfail, ?_, hsync, hS2, hm1, hm2,
        hmono, ?_⟩
      · rw [hchain]
        rfl
      · intro k hk
        have hm := syncOne_lookup_mono env fuel S parent ts k hk
        rw [hs] at hm
        exact hmonoS k hm

def egEnvBadRST : Env :=
  ⟨[egNextBlock],
   fun blks => if blks.isEmpty then .error (.consensusFailure 0) else .ok blks,
   fun _ _ _ => .error (.consensusFailure 9),
   fun _ _ _ _ => .ok true⟩

def egBadState5 : SyncState := ⟨egStore, [10], [[2]], SyncMode.syncing, []⟩

theorem claim5_witness :
    syncLoopRest egEnvBadRST 10 egState [egGenesisBlock] [[egNextBlock]]
        = (egBadState5, .error (.consensusFailure 9)) ∧
    ∃ (pre post : List TipSet) (ts p2 : TipSet) (Spre Sfail : SyncState),
      [[egNextBlock]] = pre ++ ts :: post ∧
      syncOne egEnvBadRST 10 Spre p2 ts = (Sfail, .error (.consensusFailure 9)) ∧
      egBadState5 = addChainBad (ts :: post) Sfail ∧
      tsKey ts ∈ egBadState5.badTipSets ∧
      (∀ t ∈ post, tsKey t ∈ egBadState5.badTipSets) ∧
      (∀ k, (lookupTS Spre.store k).isSome →
        (lookupTS egBadState5.store k).isSome) ∧
      (∀ k, (lookupTS egState.store k).isSome →
        (lookupTS egBadState5.store k).isSome) :=
  ⟨rfl,
   claim5_syncOne_failure_marks_bad egEnvBadRST 10 [[egNextBlock]] egState
     egBadState5 [egGenesisBlock] (.consensusFailure 9) rfl⟩

/-- C10: when widening the first collected tipset produces `some wts` and
`syncOne` fails on `wts`, the chain processing (and the enclosing
`HandleNewTipset`) returns that error immediately and the bad-tipset cache
is unchanged: bad-marking happens only for failures on members of the
collected chain, never for the widened tipset. -/
theorem claim10_widen_failure_no_marking (env : Env) (fuel : Nat) :
    (∀ (S : SyncState) (parent c0 : TipSet) (rest : List TipSet)
        (wts : TipSet) (S2 : SyncState) (e : SyncErr),
      widen (pushWiden S c0) c0 = .ok (some wts) →
      syncOne env fuel (pushWiden S c0) parent wts = (S2, .error e) →
      processChain env fuel S parent (c0 :: rest) = (S2, .error e) ∧
        S2.badTipSets = S.badTipSets) ∧
    (∀ (S S1 : SyncState) (K : Key) (c0 : TipSet) (rest : List TipSet)
        (pc : Key) (ptsas : TipSetAndState) (wts : TipSet) (S2 : SyncState)
        (e : SyncErr),
      hasAllBlocks S.store K = false →
      collectChain env fuel S K = (S1, .ok (c0 :: rest)) →
      tsParents c0 = .ok pc →
      lookupTS S1.store pc = some ptsas →
      widen (pushWiden S1 c0) c0 = .ok (some wts) →
      syncOne env fuel (pushWiden S1 c0) ptsas.tipSet wts = (S2, .error e) →
      HandleNewTipset env fuel S K = (S2, .err e) ∧
        S2.badTipSets = S1.badTipSets) := by
  have hcore : ∀ (S : SyncState) (parent c0 : TipSet) (rest : List TipSet)
      (wts : TipSet) (S2 : SyncState) (e : SyncErr),
      widen (pushWiden S c0) c0 = .ok (some wts) →
      syncOne env fuel (pushWiden S c0) parent wts = (S2, .error e) →
      processChain env fuel S parent (c0 :: rest) = (S2, .error e) ∧
        S2.badTipSets = S.badTipSets := by
    intro S parent c0 rest wts S2 e hw hs
    constructor
    · unfold processChain
      simp only [hw, hs]
    · have hb := syncOne_bad env fuel (pushWiden S c0) parent wts
      rw [hs] at hb
      exact hb
  refine ⟨hcore, ?_⟩
  intro S S1 K c0 rest pc ptsas wts S2 e hNA hc hp hl hw hs
  obtain ⟨hproc, hbad⟩ := hcore S1 ptsas.tipSet c0 rest wts S2 e hw hs
  constructor
  · unfold HandleNewTipset
    rw [if_neg (by rw [hNA]; exact Bool.false_ne_true)]
    simp only [hc, hp, hl, hproc]
  · exact hbad

def egForkBlock : Block := ⟨3, [1], 1⟩

def egStateFork : SyncState :=
  ⟨⟨[([1], ⟨[egGenesisBlock], 10⟩), ([3], ⟨[egForkBlock], 12⟩)], [1],
    [egGenesisBlock, egForkBlock]⟩, [10, 12], [], SyncMode.syncing, []⟩

def egEnvWide : Env :=
  ⟨[egNextBlock],
   fun blks => if blks.isEmpty then .error (.consensusFailure 0) else .ok blks,
   fun ts _ st =>
     if ts.length > 1 then .error (.consensusFailure 7) else .ok (st + 1),
   fun _ _ _ _ => .ok true⟩

def egStateFork1 : SyncState :=
  ⟨⟨[([1], ⟨[egGenesisBlock], 10⟩), ([3], ⟨[egForkBlock], 12⟩)], [1],
    [egGenesisBlock, egForkBlock, egNextBlock]⟩, [10, 12], [],
    SyncMode.syncing, []⟩

theorem claim10_witness :
    hasAllBlocks egStateFork.store [2] = false ∧
    collectChain egEnvWide 10 egStateFork [2]
        = (egStateFork1, .ok [[egNextBlock]]) ∧
    widen (pushWiden egStateFork1 [egNextBlock]) [egNextBlock]
        = .ok (some [egNextBlock, egForkBlock]) ∧
    HandleNewTipset egEnvWide 10 egStateFork [2]
        = (pushWiden egStateFork1 [egNextBlock], .err (.consensusFailure 7)) ∧
    (pushWiden egStateFork1 [egNextBlock]).badTipSets
        = egStateFork1.badTipSets :=
  ⟨by decide, rfl, rfl,
   ((claim10_widen_failure_no_marking egEnvWide 10).2 egStateFork egStateFork1
     [2] [egNextBlock] [] [1] ⟨[egGenesisBlock], 10⟩
     [egNextBlock, egForkBlock] (pushWiden egStateFork1 [egNextBlock])
     (.consensusFailure 7) (by decide) rfl rfl rfl rfl rfl).1,
   ((claim10_widen_failure_no_marking egEnvWide 10).2 egStateFork egStateFork1
     [2] [egNextBlock] [] [1] ⟨[egGenesisBlock], 10⟩
     [egNextBlock, egForkBlock] (pushWiden egStateFork1 [egNextBlock])
     (.consensusFailure 7) (by decide) rfl rfl rfl rfl rfl).2⟩

/-- The fold of `pickMax` returns the first element (of seed followed by
candidates) whose block count attains the maximum: everything before it is
strictly smaller, everything in range is no larger. -/
theorem pickMax_first_max (l : List TipSetAndState) :
    ∀ m : TipSetAndState,
      ∃ pre post, m :: l = pre ++ (pickMax l m) :: post ∧
        (∀ d ∈ pre, d.tipSet.length < (pickMax l m).tipSet.length) ∧
        (∀ d ∈ m :: l, d.tipSet.length ≤ (pickMax l m).tipSet.length) := by
  induction l with
  | nil =>
    intro m
    refine ⟨[], [], rfl, ?_, ?_⟩
    · intro d hd
      cases hd
    · intro d hd
      rcases List.mem_cons.mp hd with rfl | hd
      · exact Nat.le_refl _
      · cases hd
  | cons c cs ih =>
    intro m
    by_cases hlt : m.tipSet.length < c.tipSet.length
    · have hstep : pickMax (c :: cs) m = pickMax cs c := by
        unfold pickMax
        rw [List.foldl_cons, if_pos hlt]
      rw [hstep]
      obtain ⟨pre, post, hsplit, hpre, hall⟩ := ih c
      refine ⟨m :: pre, post, ?_, ?_, ?_⟩
      · rw [List.cons_append, ← hsplit]
      · intro d hd
        rcases List.mem_cons.mp hd with rfl | hd
        · exact Nat.lt_of_lt_of_le hlt (hall c (List.mem_cons_self _ _))
        · exact hpre d hd
      · intro d hd
        rcases List.mem_cons.mp hd with rfl | hd
        · exact Nat.le_of_lt (Nat.lt_of_lt_of_le hlt
            (hall c (List.mem_cons_self _ _)))
        · exact hall d hd
    · have hstep : pickMax (c :: cs) m = pickMax cs m := by
        unfold pickMax
        rw [List.foldl_cons, if_neg hlt]
      rw [hstep]
      obtain ⟨pre, post, hsplit, hpre, hall⟩ := ih m
      cases pre with
      | nil =>
        rw [List.nil_append] at hsplit
        injection hsplit with h1 h2
        refine ⟨[], c :: cs, ?_, ?_, ?_⟩
        · rw [List.nil_append, ← h1]
        · intro d hd
          cases hd
        · intro d hd
          rcases List.mem_cons.mp hd with rfl | hd
          · exact hall d (List.mem_cons_self _ _)
          · rcases List.mem_cons.mp hd with rfl | hd
            · exact Nat.le_trans (Nat.le_of_not_lt hlt)
                (hall m (List.mem_cons_self _ _))
            · exact hall d (List.mem_cons_of_mem _ hd)
      | cons p0 pre0 =>
        rw [List.cons_append] at hsplit
        injection hsplit with h1 h2
        refine ⟨m :: c :: pre0, post, ?_, ?_, ?_⟩
        · rw [List.cons_append, List.cons_append, ← h2]
        · intro d hd
          have hm : m.tipSet.length < (pickMax cs m).tipSet.length := by
            have hp := hpre p0 (List.mem_cons_self _ _)
            rw [← h1] at hp
            exact hp
          rcases List.mem_cons.mp hd with rfl | hd
          · exact hm
          · rcases List.mem_cons.mp hd with rfl | hd
            · exact Nat.lt_of_le_of_lt (Nat.le_of_not_lt hlt) hm
            · exact hpre d (List.mem_cons_of_mem _ hd)
        · intro d hd
          rcases List.mem_cons.mp hd with rfl | hd
          · exact hall d (List.mem_cons_self _ _)
          · rcases List.mem_cons.mp hd with rfl | hd
            · exact Nat.le_trans (Nat.le_of_not_lt hlt)
                (hall m (List.mem_cons_self _ _))
            · exact hall d (List.mem_cons_of_mem _ hd)

theorem collectChain_widenAttempts (env : Env) (fuel : Nat) (S : SyncState)
    (K : Key) :
    (collectChain env fuel S K).1.widenAttempts = S.widenAttempts :=
  (collectChainAux_frame env fuel S K []).2.2.2.2

theorem processChain_widenAttempts (env : Env) (fuel : Nat) (S : SyncState)
    (parent c0 : TipSet) (rest : List TipSet) :
    (processChain env fuel S parent (c0 :: rest)).1.widenAttempts
      = S.widenAttempts ++ [tsKey c0] := by
  unfold processChain
  split
  · rename_i heq
    exact absurd heq (List.cons_ne_nil c0 rest)
  · rename_i c1 tail heq
    injection heq with h1 h2
    subst h1
    subst h2
    split
    · rfl
    · rw [syncLoopRest_widenAttempts]
      rfl
    · rename_i hscr wts hw
      rcases hs : syncOne env fuel (pushWiden S c0) parent wts with ⟨S2, r⟩
      have hb := syncOne_widenAttempts env fuel (pushWiden S c0) parent wts
      rw [hs] at hb
      cases r
      · exact hb
      · rw [syncLoopRest_widenAttempts]
        exact hb

theorem HandleNewTipset_widenAttempts (env : Env) (fuel : Nat) (S : SyncState)
    (K : Key) :
    (HandleNewTipset env fuel S K).1.widenAttempts = S.widenAttempts ∨
    ∃ (S1 : SyncState) (c0 : TipSet) (rest : List TipSet),
      collectChain env fuel S K = (S1, .ok (c0 :: rest)) ∧
      (HandleNewTipset env fuel S K).1.widenAttempts
        = S.widenAttempts ++ [tsKey c0] := by
  unfold HandleNewTipset
  split
  · exact Or.inl rfl
  · split
    · rename_i S1 e hc
      have hf := collectChain_widenAttempts env fuel S K
      rw [hc] at hf
      exact Or.inl hf
    · rename_i S1 chain hc
      have hf := collectChain_widenAttempts env fuel S K
      rw [hc] at hf
      split
      · exact Or.inl hf
      · rename_i c0 tail
        split
        · exact Or.inl hf
        · split
          · exact Or.inl hf
          · split
            · rename_i ptsas hlook hx S2 e2 hproc
              have hp := processChain_widenAttempts env fuel S1 ptsas.tipSet
                c0 tail
              rw [hproc] at hp
              exact Or.inr ⟨S1, c0, tail, hc, by rw [hp, hf]⟩
            · rename_i ptsas hlook hx S2 u hproc
              have hp := processChain_widenAttempts env fuel S1 ptsas.tipSet
                c0 tail
              rw [hproc] at hp
              exact Or.inr ⟨S1, c0, tail, hc, by rw [hp, hf]⟩

/-- C4: `widen(ts)` consults the stored tipsets with the same parents and
height: with no candidates it returns none; with candidates it unions `ts`
with the candidate selected by `pickMax` (which is the first candidate
attaining the maximal block count: all earlier ones are strictly smaller,
none is larger) and returns the union unless it coincides (as a key) with
`ts` or with the chosen candidate; and widening is attempted only on the
first tipset of a collected chain. -/
theorem claim4_widen_spec :
    (∀ (S : SyncState) (ts : TipSet) (pk : Key) (h : Nat),
      tsParents ts = .ok pk → tsHeight ts = .ok h →
      tipsetsByParentsAndHeight S.store pk h = [] →
      widen S ts = .ok none) ∧
    (∀ (S : SyncState) (ts : TipSet) (pk : Key) (h : Nat)
        (c0 : TipSetAndState) (cs : List TipSetAndState) (wts : TipSet),
      tsParents ts = .ok pk → tsHeight ts = .ok h →
      tipsetsByParentsAndHeight S.store pk h = c0 :: cs →
      (pickMax (c0 :: cs) c0).tipSet.foldlM addBlockTS ts = .ok wts →
      widen S ts = .ok (if tsKey wts = tsKey ts ∨
          tsKey wts = tsKey (pickMax (c0 :: cs) c0).tipSet
        then none else some wts)) ∧
    (∀ (c0 : TipSetAndState) (cs : List TipSetAndState),
      ∃ pre post, c0 :: cs = pre ++ (pickMax (c0 :: cs) c0) :: post ∧
        (∀ d ∈ pre,
          d.tipSet.length < (pickMax (c0 :: cs) c0).tipSet.length) ∧
        (∀ d ∈ c0 :: cs,
          d.tipSet.length ≤ (pickMax (c0 :: cs) c0).tipSet.length)) ∧
    (∀ (env : Env) (fuel : Nat) (S : SyncState) (K : Key),
      (HandleNewTipset env fuel S K).1.widenAttempts = S.widenAttempts ∨
      ∃ (S1 : SyncState) (c0 : TipSet) (rest : List TipSet),
        collectChain env fuel S K = (S1, .ok (c0 :: rest)) ∧
        (HandleNewTipset env fuel S K).1.widenAttempts
          = S.widenAttempts ++ [tsKey c0]) := by
  refine ⟨?_, ?_, ?_, ?_⟩
  · intro S ts pk h hp hh hcand
    unfold widen
    simp only [hp, hh, hcand]
  · intro S ts pk h c0 cs wts hp hh hcand hfold
    unfold widen
    simp only [hp, hh, hcand, hfold]
    split
    · rfl
    · rfl
  · intro c0 cs
    have hdup : pickMax (c0 :: cs) c0 = pickMax cs c0 := by
      unfold pickMax
      rw [List.foldl_cons, if_neg (Nat.lt_irrefl _)]
    rw [hdup]
    exact pickMax_first_max cs c0
  · intro env fuel S K
    exact HandleNewTipset_widenAttempts env fuel S K

theorem claim4_witness :
    widen egState [egNextBlock] = .ok none ∧
    widen egStateFork [egNextBlock]
        = .ok (if tsKey [egNextBlock, egForkBlock] = tsKey [egNextBlock] ∨
            tsKey [egNextBlock, egForkBlock]
              = tsKey (pickMax [⟨[egForkBlock], 12⟩] ⟨[egForkBlock], 12⟩).tipSet
          then none else some [egNextBlock, egForkBlock]) ∧
    ((HandleNewTipset egEnvWide 10 egStateFork [2]).1.widenAttempts
        = egStateFork.widenAttempts ∨
      ∃ (S1 : SyncState) (c0 : TipSet) (rest : List TipSet),
        collectChain egEnvWide 10 egStateFork [2] = (S1, .ok (c0 :: rest)) ∧
        (HandleNewTipset egEnvWide 10 egStateFork [2]).1.widenAttempts
          = egStateFork.widenAttempts ++ [tsKey c0]) :=
  ⟨claim4_widen_spec.1 egState [egNextBlock] [1] 1 rfl rfl rfl,
   claim4_widen_spec.2.1 egStateFork [egNextBlock] [1] 1 ⟨[egForkBlock], 12⟩ []
     [egNextBlock, egForkBlock] rfl rfl rfl rfl,
   claim4_widen_spec.2.2.2 egEnvWide 10 egStateFork [2]⟩
